import Mathlib

/-!
Verification of the `sphinxcontrib.intertex` Sphinx extension
(`sphinxcontrib/intertex/__init__.py`) against its natural-language
specification.

The embedding below translates the extension's logic into Lean:

* the regex scanners (`AUX_ENTRY_REGEX`, `BRACKETED_VALUE_REGEX`,
  `BRACKETED_MODULE_NAME_REGEX`) become explicit character-list
  scanners, written as structurally recursive state machines so that
  they evaluate on concrete inputs;
* `expand_aux_file_names`, `read_mapping`, `get_citation_ref`,
  `make_bib_reference`, `make_pdf_reference` and `missing_reference`
  become Lean functions, with the external collaborators (the file
  system's glob, `os.path.normpath`, module import / source-file
  lookup, and Sphinx's `tex_replace_map` translation) passed in as
  function parameters;
* raised Python exceptions become `Except.error`;
* calls to `logger.error` / `logger.warning` become entries of an
  explicit log list, with the severity recorded structurally.
-/

namespace Intertex

/-! ## Characters and the brace-group scanners

`BRACKETED_VALUE_REGEX` is `re.compile` of `\x7b([^\x7b\x7d]*)\x7d`:
an opening brace, any run of non-brace characters (captured), and a
closing brace.  A match attempt started at an opening brace therefore
succeeds at the first closing brace, and fails if another opening brace
or the end of the input intervenes; on failure the regex engine resumes
scanning at the character after the attempt's opening brace.  All
characters strictly between a failed attempt's opening brace and the
next opening brace are non-brace characters, so no match can start
there; the scanners below exploit this and restart a group attempt
directly at the next opening brace. -/

/-- The opening curly-brace character. -/
def lbrace : Char := '\x7b'

/-- The closing curly-brace character. -/
def rbrace : Char := '\x7d'

/-- A character list containing no curly braces: what the capture group
of `BRACKETED_VALUE_REGEX` can hold. -/
def braceFree (cs : List Char) : Prop := ∀ c ∈ cs, c ≠ lbrace ∧ c ≠ rbrace

instance (cs : List Char) : Decidable (braceFree cs) := by
  unfold braceFree; infer_instance

/-- State machine for `BRACKETED_VALUE_REGEX.findall`.  The second
argument is `none` while scanning outside any group attempt, and
`some acc` while inside a group attempt whose captured content so far
is `acc`. -/
def findallSM : List Char → Option (List Char) → List String
  | [], _ => []
  | c :: rest, none =>
    if c = lbrace then findallSM rest (some []) else findallSM rest none
  | c :: rest, some acc =>
    if c = rbrace then String.mk acc :: findallSM rest none
    else if c = lbrace then findallSM rest (some [])
    else findallSM rest (some (acc ++ [c]))

/-- `BRACKETED_VALUE_REGEX.findall`: all captured brace-group contents,
in order. -/
def findall (cs : List Char) : List String := findallSM cs none

/-- State machine for `re.split` on `BRACKETED_VALUE_REGEX`, whose
result alternates literal segments with captured group contents.  `lit`
is the literal segment accumulated so far; the `Option` argument is as
in `findallSM`.  Characters of a failed group attempt (its opening
brace included) belong to the literal segment. -/
def splitSM : List Char → List Char → Option (List Char) → List String
  | [], lit, none => [String.mk lit]
  | [], lit, some acc => [String.mk (lit ++ lbrace :: acc)]
  | c :: rest, lit, none =>
    if c = lbrace then splitSM rest lit (some [])
    else splitSM rest (lit ++ [c]) none
  | c :: rest, lit, some acc =>
    if c = rbrace then String.mk lit :: String.mk acc :: splitSM rest [] none
    else if c = lbrace then splitSM rest (lit ++ lbrace :: acc) (some [])
    else splitSM rest lit (some (acc ++ [c]))

/-- `BRACKETED_VALUE_REGEX.split`: alternating literal segments and
captured group contents, starting and ending with a (possibly empty)
literal segment. -/
def splitBracketed (cs : List Char) : List String := splitSM cs [] none

/-! ## The `\newlabel` line matcher -/

/-- Literal-head matcher used for `AUX_ENTRY_REGEX` (`re.match` of
`\\newlabel(.*)`): succeeds exactly when the input starts with the
given literal, returning the remaining characters (the capture group). -/
def dropLit : List Char → List Char → Option (List Char)
  | [], cs => some cs
  | _ :: _, [] => none
  | p :: ps, c :: cs => if c = p then dropLit ps cs else none

/-- The characters of the literal `\newlabel`. -/
def newlabelChars : List Char := ['\\', 'n', 'e', 'w', 'l', 'a', 'b', 'e', 'l']

/-- `AUX_ENTRY_REGEX.match line`, returning the captured macro
arguments: the characters after a leading `\newlabel`, or `none` when
the line does not start with it. -/
def auxEntryMatch (line : List Char) : Option (List Char) := dropLit newlabelChars line

/-- A well-formed label-definition line
`\newlabel\x7blabel\x7d\x7bsection\x7d\x7bpage\x7d`, as a character
list. -/
def mkLabelLine (label sectionNo page : String) : List Char :=
  newlabelChars ++
    lbrace :: (label.toList ++ rbrace ::
      (lbrace :: (sectionNo.toList ++ rbrace ::
        (lbrace :: (page.toList ++ [rbrace])))))

/-! ## Logging

Each call of `logger.error` / `logger.warning` in the source is
modelled as one structural log entry; `severity` records which of the
two logger methods the source calls for it. -/

/-- Severity of a log message: which logger method emitted it. -/
inductive Severity where
  | error
  | warning
deriving DecidableEq

/-- The log messages the extension can emit, one constructor per
logging call site in the source. -/
inductive LogEntry where
  /-- "Intertex couldn't import module %s (%s), skipping %r" -/
  | importError (modname msg bibentry : String)
  /-- "Intertex couldn't find any aux files matching %s, skipping %r" -/
  | noMatchError (pat bibentry : String)
  /-- "Intertex found multiple aux files matching %s for %r, will use only %s" -/
  | multiMatchError (pat bibentry chosen : String)
  /-- "Intertex sphinx reference %s defined multiple times" -/
  | dupWarning (target : String)
  /-- "Intertex found no citation for %r" -/
  | noCitationWarning (bibentry : String)
deriving DecidableEq

/-- The severity each log call site uses: `logger.error` for the three
messages of `expand_aux_file_names`, `logger.warning` for the duplicate
label message of `read_mapping` and the missing-citation message of
`make_bib_reference`. -/
def LogEntry.severity : LogEntry → Severity
  | .importError _ _ _ => .error
  | .noMatchError _ _ => .error
  | .multiMatchError _ _ _ => .error
  | .dupWarning _ => .warning
  | .noCitationWarning _ => .warning

/-- Number of occurrences of an element in a list (used to count log
messages and index writes). -/
def countOcc {α : Type} [DecidableEq α] (a : α) : List α → Nat
  | [] => 0
  | b :: rest => (if b = a then 1 else 0) + countOcc a rest

/-! ## Python dictionaries as association lists

Python dicts preserve insertion order; overwriting an existing key
keeps its position.  `lookupAssoc` models `d[k]` / `k in d`,
`updateAssoc` models `d[k] = v`. -/

/-- Dictionary lookup. -/
def lookupAssoc {α : Type} (k : String) : List (String × α) → Option α
  | [] => none
  | (k', v) :: rest => if k' = k then some v else lookupAssoc k rest

/-- Dictionary assignment: replaces the value in place if the key is
present, appends otherwise. -/
def updateAssoc {α : Type} (k : String) (v : α) : List (String × α) → List (String × α)
  | [] => [(k, v)]
  | (k', v') :: rest => if k' = k then (k, v) :: rest else (k', v') :: updateAssoc k v rest

/-! ## `read_mapping`: aux-file parsing and the Reference Index

`read_mapping` reads every configured aux file line by line.  A line
matching `AUX_ENTRY_REGEX` has its arguments split by
`BRACKETED_VALUE_REGEX.findall`; the first three groups are label,
section and page (`args[0]`, `args[1]`, `args[2]` — an `IndexError`,
modelled as `Except.error`, if fewer than three groups exist).  The
label, and additionally the part after the first colon when the label
contains one, become index keys; each write warns once per key on
redefinition.  (The marking of the bibliography entry as a used
citation, a side effect on Sphinx's citation domain, is not modelled.) -/

/-- A Reference Index value: (bibliography entry, section, page). -/
abbrev RefTuple := String × String × String

/-- The mutable state of `read_mapping`: the Reference Index
(`env.intertex_refs`), the `already_warned_about_redefinition` set (as
a list), and the warnings logged so far. -/
structure RefState where
  refs : List (String × RefTuple)
  warned : List String
  log : List LogEntry
deriving DecidableEq

/-- The initial state: `env.intertex_refs = {}`, no warnings issued. -/
def initRefState : RefState := ⟨[], [], []⟩

/-- The characters after the first colon of a string
(`label.partition(":")[2]`). -/
def afterColonChars : List Char → List Char
  | [] => []
  | c :: rest => if c = ':' then rest else afterColonChars rest

/-- `label.partition(":")[2]` as a string. -/
def afterFirstColon (s : String) : String := String.mk (afterColonChars s.toList)

/-- The index keys derived from one label: the full label and, when the
label contains a colon, also the part after the first colon. -/
def sphinxTargets (label : String) : List String :=
  if ':' ∈ label.toList then [label, afterFirstColon label] else [label]

/-- One write of the inner loop of `read_mapping` (source lines
161–172): warn if the key is being redefined and was not warned about
before, then store the tuple under the key. -/
def writeRef (st : RefState) (target : String) (v : RefTuple) : RefState :=
  if (lookupAssoc target st.refs).isSome ∧ target ∉ st.warned then
    { refs := updateAssoc target v st.refs,
      warned := st.warned ++ [target],
      log := st.log ++ [LogEntry.dupWarning target] }
  else
    { st with refs := updateAssoc target v st.refs }

/-- The inner loop of `read_mapping` over a list of (key, tuple) write
events. -/
def writeRefs (st : RefState) (events : List (String × RefTuple)) : RefState :=
  events.foldl (fun s e => writeRef s e.1 e.2) st

/-- Processing of a single aux-file line by `read_mapping`.  A line not
matching `AUX_ENTRY_REGEX` is skipped; a matching line must yield at
least three brace groups or `args[0..2]` raises `IndexError`
(`Except.error`); groups beyond the third are ignored. -/
def processLine (bibentry : String) (st : RefState) (line : List Char) :
    Except Unit RefState :=
  match auxEntryMatch line with
  | none => Except.ok st
  | some rest =>
    match findall rest with
    | label :: sectionNo :: page :: _ =>
      Except.ok (writeRefs st ((sphinxTargets label).map (fun t => (t, (bibentry, sectionNo, page)))))
    | _ => Except.error ()

/-- All lines of one aux file, processed in order. -/
def readAuxLines (bibentry : String) : List (List Char) → RefState → Except Unit RefState
  | [], st => Except.ok st
  | line :: rest, st =>
    match processLine bibentry st line with
    | Except.ok st' => readAuxLines bibentry rest st'
    | Except.error e => Except.error e

/-- `read_mapping` over the (already expanded) mapping: each entry is a
bibliography key together with the lines of its aux file. -/
def read_mapping : List (String × List (List Char)) → RefState → Except Unit RefState
  | [], st => Except.ok st
  | (bibentry, lines) :: rest, st =>
    match readAuxLines bibentry lines st with
    | Except.ok st' => read_mapping rest st'
    | Except.error e => Except.error e

/-! ## Docutils nodes and the Citation Bridge -/

/-- The docutils nodes the extension builds or receives.  `refnode`
models the result of `sphinx.util.nodes.make_refnode` (a hyperlink to
`(docname, labelid)` wrapping a child node); `citationRef` models a
`nodes.citation_reference` with its text, `docname` and `refname`
attributes. -/
inductive Node where
  | text (s : String)
  | inline (children : List Node)
  | refnode (fromdoc docname labelid : String) (child : Node)
  | citationRef (txt docname refname : String)

mutual

/-- `node.astext()`: the concatenated text of a node.  All element
nodes involved are docutils `TextElement`s, whose
`child_text_separator` is the empty string. -/
def Node.astext : Node → String
  | .text s => s
  | .inline children => astextList children
  | .refnode _ _ _ child => Node.astext child
  | .citationRef txt _ _ => txt

/-- Concatenated text of a list of sibling nodes. -/
def astextList : List Node → String
  | [] => ""
  | n :: rest => Node.astext n ++ astextList rest

end

/-- The citation registry of Sphinx's citation domain
(`env.get_domain("citation").citations`): bibliography key to
(docname, labelid, lineno). -/
abbrev Citations := List (String × (String × String × Nat))

/-- `get_citation_ref`: the (docname, labelid) pair referencing the
citation definition for a bibliography entry, or `("", "")` when none
exists (`citations.get(bibentry, ("", "", 0))` keeps only the first two
components). -/
def get_citation_ref (citations : Citations) (bibentry : String) : String × String :=
  match lookupAssoc bibentry citations with
  | some (docname, labelid, _) => (docname, labelid)
  | none => ("", "")

/-- `make_bib_reference`: a node referencing a bibliography entry,
together with the warnings logged while building it.  With a known
citation target the node is a `citation_reference` for the LaTeX
builder and a `make_refnode` hyperlink otherwise; with no known target
(empty docname) it is plain text `[bibentry]` plus a warning. -/
def make_bib_reference (fmt : String) (citations : Citations) (bibentry refdoc : String) :
    Node × List LogEntry :=
  let dl := get_citation_ref citations bibentry
  if dl.1 ≠ "" then
    if fmt = "latex" then
      (Node.citationRef ("[" ++ bibentry ++ "]") dl.1 dl.2, [])
    else
      (Node.refnode refdoc dl.1 dl.2 (Node.text ("[" ++ bibentry ++ "]")), [])
  else
    (Node.text ("[" ++ bibentry ++ "]"), [LogEntry.noCitationWarning bibentry])

/-! ## `make_pdf_reference`: the template formatter -/

/-- The node substituted for a placeholder name in the reference-format
template: the dict literal of `make_pdf_reference`, `none` standing for
the `KeyError` an unknown name raises. -/
def placeholderNode (contnode bibref : Node) (sectionNo page : String) :
    String → Option Node
  | "label" => some contnode
  | "bibref" => some bibref
  | "section" => some (Node.text sectionNo)
  | "page" => some (Node.text page)
  | _ => none

/-- The child-building loop of `make_pdf_reference`: the split template
parts alternate literal text and placeholder names; a trailing lone
literal ends the loop (`StopIteration`); an unknown placeholder name
raises (`Except.error`). -/
def buildParts (contnode bibref : Node) (sectionNo page : String) :
    List String → Except Unit (List Node)
  | [] => Except.ok []
  | [t] => Except.ok [Node.text t]
  | t :: ph :: rest =>
    match placeholderNode contnode bibref sectionNo page ph with
    | some n =>
      match buildParts contnode bibref sectionNo page rest with
      | Except.ok tail => Except.ok (Node.text t :: n :: tail)
      | Except.error e => Except.error e
    | none => Except.error ()

/-- `make_pdf_reference`: format a reference to (bibentry, section,
page) according to the `intertex_reference_format` template, wrapping
the alternating literal/substituted children in an `inline` node.  The
warnings of `make_bib_reference` are returned alongside. -/
def make_pdf_reference (template fmt : String) (citations : Citations)
    (bibentry sectionNo page : String) (contnode : Node) (refdoc : String) :
    Except Unit (Node × List LogEntry) :=
  let br := make_bib_reference fmt citations bibentry refdoc
  match buildParts contnode br.1 sectionNo page (splitBracketed template.toList) with
  | Except.ok children => Except.ok (Node.inline children, br.2)
  | Except.error e => Except.error e

/-- The default `intertex_reference_format` registered by `setup`. -/
def defaultReferenceFormat : String := "\x7blabel\x7d (\x7bbibref\x7d, page \x7bpage\x7d)"

/-! ## `missing_reference`: the resolver -/

/-- `t.replace("_", "-")`. -/
def underscoreToHyphen (s : String) : String :=
  String.mk (s.toList.map (fun c => if c = '_' then '-' else c))

/-- `t.replace("\\", "_")`. -/
def backslashToUnderscore (s : String) : String :=
  String.mk (s.toList.map (fun c => if c = '\\' then '_' else c))

/-- The LaTeX-escaping step of `missing_reference` applied to one
candidate: the `tex_replace_map` translation plus the
ascii/backslashreplace round-trip (the external `texTranslate`
capability), followed by the in-source replacement of backslashes by
underscores. -/
def escapeVariant (texTranslate : String → String) (t : String) : String :=
  backslashToUnderscore (texTranslate t)

/-- The candidate target list built by `missing_reference`: the literal
target; `module-` plus the target for `mod`-type references; then, for
every candidate so far, its escaped variant; then, for every candidate
so far, its underscore-to-hyphen variant. -/
def reftargets_to_try (texTranslate : String → String) (reftype reftarget : String) :
    List String :=
  let l1 := [reftarget]
  let l2 := if reftype = "mod" then l1 ++ ["module-" ++ reftarget] else l1
  let l3 := l2 ++ l2.map (escapeVariant texTranslate)
  l3 ++ l3.map underscoreToHyphen

/-- `missing_reference`: `None` (not handled) unless the builder format
is an enabled format; otherwise the candidates are tried against the
Reference Index in order and the first hit is formatted with
`make_pdf_reference`. -/
def missing_reference (texTranslate : String → String) (fmt : String)
    (formats : List String) (template : String) (citations : Citations)
    (refs : List (String × RefTuple)) (reftype reftarget refdoc : String)
    (contnode : Node) : Option (Except Unit (Node × List LogEntry)) :=
  if fmt ∈ formats then
    (reftargets_to_try texTranslate reftype reftarget).findSome? (fun t =>
      (lookupAssoc t refs).map (fun r =>
        make_pdf_reference template fmt citations r.1 r.2.1 r.2.2 contnode refdoc))
  else
    none

/-! ## `expand_aux_file_names`: the Path Resolver

`BRACKETED_MODULE_NAME_REGEX` is `re.compile` of
`\x7b([a-zA-Z0-9_\.]+)\x7d`.  `re.sub` replaces each match with
`os.path.dirname(inspect.getsourcefile(importlib.import_module(name)))
+ "/"`; the surrounding `try` catches `ImportError` only, so the
`TypeError` arising for a module with no locatable Python source file
(raised by `inspect.getfile` for a built-in module, or by
`os.path.dirname(None)` when `getsourcefile` returns `None` for a
C-extension module) propagates out of `expand_aux_file_names`. -/

/-- A character of the module-name class `[a-zA-Z0-9_.]`. -/
def isModChar (c : Char) : Bool := c.isAlpha || c.isDigit || c = '_' || c = '.'

/-- Outcome of resolving one bracketed module token: the directory of
the module's source file, an `ImportError` (name, message), or the
`TypeError` path for a module without a locatable source file. -/
inductive ModResult where
  | found (dir : String)
  | importFail (name msg : String)
  | noSource
deriving DecidableEq

/-- An exception escaping the module-substitution `re.sub`. -/
inductive SubstErr where
  | importFail (name msg : String)
  | typeFail
deriving DecidableEq

/-- State machine for the `re.sub` on `BRACKETED_MODULE_NAME_REGEX`:
`none` outside a match attempt, `some acc` inside an attempt whose
module-name characters so far are `acc`.  An attempt succeeds at a
closing brace after at least one name character; on failure the
attempt's characters are emitted literally (no match can start inside
them, as they are name characters) and scanning resumes.  A successful
replacement is not rescanned. -/
def substMods (rm : String → ModResult) : List Char → Option (List Char) → Except SubstErr (List Char)
  | [], none => Except.ok []
  | [], some acc => Except.ok (lbrace :: acc)
  | c :: rest, none =>
    if c = lbrace then substMods rm rest (some [])
    else
      match substMods rm rest none with
      | Except.ok t => Except.ok (c :: t)
      | Except.error e => Except.error e
  | c :: rest, some acc =>
    if isModChar c then substMods rm rest (some (acc ++ [c]))
    else if c = rbrace ∧ acc ≠ [] then
      match rm (String.mk acc) with
      | ModResult.found dir =>
        match substMods rm rest none with
        | Except.ok t => Except.ok (dir.toList ++ '/' :: t)
        | Except.error e => Except.error e
      | ModResult.importFail n m => Except.error (SubstErr.importFail n m)
      | ModResult.noSource => Except.error SubstErr.typeFail
    else if c = lbrace then
      match substMods rm rest (some []) with
      | Except.ok t => Except.ok (lbrace :: acc ++ t)
      | Except.error e => Except.error e
    else
      match substMods rm rest none with
      | Except.ok t => Except.ok (lbrace :: acc ++ c :: t)
      | Except.error e => Except.error e

/-- `BRACKETED_MODULE_NAME_REGEX.sub` over a whole pattern string. -/
def substModules (rm : String → ModResult) (pat : String) : Except SubstErr (List Char) :=
  substMods rm pat.toList none

/-- Processing of a single `intertex_mapping` entry by
`expand_aux_file_names`: substitute module tokens (an `ImportError`
logs and drops the entry; a `TypeError` propagates), normalize the
path (the external `norm` capability models `os.path.normpath`), glob
it, and keep the first match — logging an error and dropping the entry
on zero matches, and logging an error naming the first match on more
than one. -/
def expandEntry (rm : String → ModResult) (norm : String → String)
    (globFn : String → List String) (bibentry pat : String) :
    Except Unit (Option (String × String) × List LogEntry) :=
  match substModules rm pat with
  | Except.error (SubstErr.importFail n m) =>
    Except.ok (none, [LogEntry.importError n m bibentry])
  | Except.error SubstErr.typeFail => Except.error ()
  | Except.ok cs =>
    let p := norm (String.mk cs)
    match globFn p with
    | [] => Except.ok (none, [LogEntry.noMatchError p bibentry])
    | [f] => Except.ok (some (bibentry, f), [])
    | f :: _ :: _ => Except.ok (some (bibentry, f), [LogEntry.multiMatchError p bibentry f])

/-- `expand_aux_file_names` over the whole `intertex_mapping`: the new
mapping (each surviving entry bound to exactly one concrete file) and
the log, or the propagated `TypeError`. -/
def expand_aux_file_names (rm : String → ModResult) (norm : String → String)
    (globFn : String → List String) :
    List (String × String) → Except Unit (List (String × String) × List LogEntry)
  | [] => Except.ok ([], [])
  | (bibentry, pat) :: rest =>
    match expandEntry rm norm globFn bibentry pat with
    | Except.error e => Except.error e
    | Except.ok (entry, lg) =>
      match expand_aux_file_names rm norm globFn rest with
      | Except.error e => Except.error e
      | Except.ok (m, lg2) =>
        Except.ok ((match entry with
          | some kv => kv :: m
          | none => m), lg ++ lg2)

/-! ## Specification-side derived notions -/

/-- The candidate list of 4.4's `resolve_missing_reference` as the
specification words it: the literal target; the `module-`-prefixed
target for module references; then, for every candidate so far in
order, its typeset-escaped variant; then, for every candidate so far in
order, its underscore-to-hyphen variant.  Stated independently of
`reftargets_to_try` so the two can be compared. -/
def claimedCandidates (texTranslate : String -> String) (reftype reftarget : String) :
    List String :=
  let base := if reftype = "mod" then [reftarget, "module-" ++ reftarget] else [reftarget]
  let withEscaped := base ++ base.map (fun t => backslashToUnderscore (texTranslate t))
  withEscaped ++ withEscaped.map underscoreToHyphen

/-- The value written last for a key by a sequence of (key, value)
write events, if any: lookup in the reversed event list. -/
def lastWritten (k : String) (events : List (String × RefTuple)) : Option RefTuple :=
  lookupAssoc k events.reverse

/-- The write events one well-formed label record contributes: one per
index key of its label, all carrying (bibentry, section, page). -/
def lineContributions (bibentry : String) (r : String × String × String) :
    List (String × RefTuple) :=
  (sphinxTargets r.1).map (fun t => (t, (bibentry, r.2.1, r.2.2)))

/-- The write events a list of well-formed label records contributes,
in order. -/
def contributions (bibentry : String) :
    List (String × String × String) -> List (String × RefTuple)
  | [] => []
  | r :: rest => lineContributions bibentry r ++ contributions bibentry rest

/-- Invariant tying the `read_mapping` write-loop state to the history
of write events already performed (starting from `initRefState`): the
index holds each key's last-written tuple; a key is in the warned set
iff it has been written at least twice; and exactly one duplicate
warning has been logged for each such key. -/
def WriteInv (hist : List (String × RefTuple)) (st : RefState) : Prop :=
  ∀ k : String,
    lookupAssoc k st.refs = lastWritten k hist ∧
    (k ∈ st.warned ↔ 2 ≤ countOcc k (hist.map Prod.fst)) ∧
    countOcc (LogEntry.dupWarning k) st.log =
      (if 2 ≤ countOcc k (hist.map Prod.fst) then 1 else 0)

theorem findallSM_closes {cs : List Char} (h : braceFree cs) :
    ∀ (rest acc : List Char),
      findallSM (cs ++ rbrace :: rest) (some acc) =
        String.mk (acc ++ cs) :: findallSM rest none := by
  induction cs with
  | nil => intro rest acc; simp [findallSM, rbrace]
  | cons c cs ih =>
    intro rest acc
    have hc := h c (List.mem_cons_self c cs)
    have hcs : braceFree cs := fun x hx => h x (List.mem_cons_of_mem c hx)
    simp only [List.cons_append, findallSM, if_neg hc.2, if_neg hc.1]
    rw [show cs.append (rbrace :: rest) = cs ++ rbrace :: rest from rfl, ih hcs]
    simp

theorem findall_group {cs : List Char} (h : braceFree cs) (rest : List Char) :
    findall (lbrace :: (cs ++ rbrace :: rest)) = String.mk cs :: findall rest := by
  simp only [findall, findallSM, if_pos rfl, findallSM_closes h]
  simp

theorem findall_nil : findall [] = [] := rfl

theorem splitSM_closes {cs : List Char} (h : braceFree cs) :
    ∀ (rest lit acc : List Char),
      splitSM (cs ++ rbrace :: rest) lit (some acc) =
        String.mk lit :: String.mk (acc ++ cs) :: splitSM rest [] none := by
  induction cs with
  | nil => intro rest lit acc; simp [splitSM, rbrace]
  | cons c cs ih =>
    intro rest lit acc
    have hc := h c (List.mem_cons_self c cs)
    have hcs : braceFree cs := fun x hx => h x (List.mem_cons_of_mem c hx)
    simp only [List.cons_append, splitSM, if_neg hc.2, if_neg hc.1]
    rw [show cs.append (rbrace :: rest) = cs ++ rbrace :: rest from rfl, ih hcs]
    simp

theorem splitSM_literal {a : List Char} (h : braceFree a) :
    ∀ (rest lit : List Char),
      splitSM (a ++ lbrace :: rest) lit none = splitSM rest (lit ++ a) (some []) := by
  induction a with
  | nil => intro rest lit; simp [splitSM]
  | cons c a ih =>
    intro rest lit
    have hc := h c (List.mem_cons_self c a)
    have ha : braceFree a := fun x hx => h x (List.mem_cons_of_mem c hx)
    simp only [List.cons_append, splitSM, if_neg hc.1]
    rw [show a.append (lbrace :: rest) = a ++ lbrace :: rest from rfl, ih ha]
    simp

theorem splitBracketed_group {a ph : List Char} (ha : braceFree a) (hph : braceFree ph)
    (b : List Char) :
    splitBracketed (a ++ lbrace :: (ph ++ rbrace :: b)) =
      String.mk a :: String.mk ph :: splitBracketed b := by
  simp only [splitBracketed, splitSM_literal ha, splitSM_closes hph]
  simp

theorem dropLit_append : ∀ (ps rest : List Char), dropLit ps (ps ++ rest) = some rest
  | [], _ => rfl
  | p :: ps, rest => by simp [dropLit, dropLit_append ps rest]

theorem countOcc_append {α : Type} [DecidableEq α] (a : α) (l₁ l₂ : List α) :
    countOcc a (l₁ ++ l₂) = countOcc a l₁ + countOcc a l₂ := by
  induction l₁ with
  | nil => simp [countOcc]
  | cons b l₁ ih => simp [countOcc, ih]; omega

theorem lookupAssoc_eq_none {α : Type} (k : String) :
    ∀ l : List (String × α), lookupAssoc k l = none ↔ k ∉ l.map Prod.fst := by
  intro l
  induction l with
  | nil => simp [lookupAssoc]
  | cons p rest ih =>
    obtain ⟨k', v⟩ := p
    by_cases h : k' = k
    · subst h
      simp [lookupAssoc]
    · simp [lookupAssoc, if_neg h, ih, Ne.symm h]

theorem updateAssoc_of_not_mem {α : Type} {k : String} {l : List (String × α)}
    (h : lookupAssoc k l = none) (v : α) : updateAssoc k v l = l ++ [(k, v)] := by
  induction l with
  | nil => rfl
  | cons p rest ih =>
    obtain ⟨k', v'⟩ := p
    simp only [lookupAssoc] at h
    by_cases hk : k' = k
    · rw [if_pos hk] at h; cases h
    · rw [if_neg hk] at h
      simp [updateAssoc, if_neg hk, ih h]

theorem lookupAssoc_update {α : Type} (k k' : String) (v : α) :
    ∀ l : List (String × α),
      lookupAssoc k (updateAssoc k' v l) =
        if k' = k then some v else lookupAssoc k l := by
  intro l
  induction l with
  | nil => simp [updateAssoc, lookupAssoc]
  | cons p rest ih =>
    obtain ⟨k'', v''⟩ := p
    by_cases h : k'' = k'
    · subst h
      by_cases hk : k'' = k
      · subst hk
        simp [updateAssoc, lookupAssoc]
      · simp [updateAssoc, lookupAssoc, if_neg hk]
    · by_cases hk : k'' = k
      · subst hk
        rw [if_neg (fun hh : k' = k'' => h hh.symm)]
        simp [updateAssoc, lookupAssoc, if_neg h]
      · simp [updateAssoc, lookupAssoc, if_neg h, if_neg hk, ih]

theorem lookupAssoc_self_of_nodup {α : Type} :
    ∀ {l : List (String × α)}, (l.map Prod.fst).Nodup →
      ∀ kv ∈ l, lookupAssoc kv.1 l = some kv.2 := by
  intro l
  induction l with
  | nil => intro _ kv h; cases h
  | cons p rest ih =>
    intro hnd kv hkv
    obtain ⟨k', v'⟩ := p
    simp only [List.map_cons, List.nodup_cons] at hnd
    rw [List.mem_cons] at hkv
    rcases hkv with h | h
    · subst h
      simp [lookupAssoc]
    · have hk : k' ≠ kv.1 := by
        intro hcontra
        exact hnd.1 (hcontra ▸ (List.mem_map_of_mem Prod.fst h))
      simp only [lookupAssoc, if_neg hk]
      exact ih hnd.2 kv h

/-! ## Helper lemmas -/

theorem countOcc_pos {α : Type} [DecidableEq α] (a : α) :
    ∀ l : List α, a ∈ l ↔ 1 ≤ countOcc a l := by
  intro l
  induction l with
  | nil => simp [countOcc]
  | cons b rest ih =>
    by_cases hb : b = a
    · subst hb
      simp [countOcc]
    · simp [countOcc, if_neg hb, ih, hb, Ne.symm hb]

theorem lookupAssoc_isSome {α : Type} (k : String) :
    ∀ l : List (String × α), (lookupAssoc k l).isSome ↔ k ∈ l.map Prod.fst := by
  intro l
  induction l with
  | nil => simp [lookupAssoc]
  | cons p rest ih =>
    obtain ⟨k2, v⟩ := p
    by_cases h : k2 = k
    · subst h
      simp [lookupAssoc]
    · simp [lookupAssoc, if_neg h, ih, Ne.symm h, h]

theorem lastWritten_append (k k2 : String) (v : RefTuple) (hist : List (String × RefTuple)) :
    lastWritten k (hist ++ [(k2, v)]) =
      if k2 = k then some v else lastWritten k hist := by
  simp [lastWritten, lookupAssoc]

theorem lastWritten_isSome (k : String) (hist : List (String × RefTuple)) :
    (lastWritten k hist).isSome ↔ 1 ≤ countOcc k (hist.map Prod.fst) := by
  rw [lastWritten, lookupAssoc_isSome, ← countOcc_pos]
  simp

theorem findSome?_eq_none {α β : Type} (f : α -> Option β) :
    ∀ l : List α, (∀ x ∈ l, f x = none) -> l.findSome? f = none := by
  intro l
  induction l with
  | nil => intro _; rfl
  | cons a l ih =>
    intro h
    rw [List.findSome?_cons, h a (List.mem_cons_self a l)]
    exact ih (fun x hx => h x (List.mem_cons_of_mem a hx))

theorem findSome?_first_hit {α β : Type} (f : α -> Option β) {c : α} {b : β} :
    ∀ (pre : List α) (post : List α), (∀ x ∈ pre, f x = none) -> f c = some b ->
      (pre ++ c :: post).findSome? f = some b := by
  intro pre
  induction pre with
  | nil =>
    intro post _ hc
    rw [List.nil_append, List.findSome?_cons, hc]
  | cons a pre ih =>
    intro post h hc
    rw [List.cons_append, List.findSome?_cons, h a (List.mem_cons_self a pre)]
    exact ih post (fun x hx => h x (List.mem_cons_of_mem a hx)) hc

theorem findSome?_of_uniform {α β : Type} (f : α -> Option β) {b : β} :
    ∀ l : List α, (∀ x ∈ l, f x = none ∨ f x = some b) -> (∃ x ∈ l, f x = some b) ->
      l.findSome? f = some b := by
  intro l
  induction l with
  | nil => intro _ hex; simp at hex
  | cons a l ih =>
    intro h hex
    rw [List.findSome?_cons]
    rcases h a (List.mem_cons_self a l) with ha | ha
    · rw [ha]
      apply ih (fun x hx => h x (List.mem_cons_of_mem a hx))
      rcases hex with ⟨x, hx, hfx⟩
      rw [List.mem_cons] at hx
      rcases hx with rfl | hx
      · rw [ha] at hfx; cases hfx
      · exact ⟨x, hx, hfx⟩
    · rw [ha]

theorem writeRef_inv {hist : List (String × RefTuple)} {st : RefState}
    (h : WriteInv hist st) (k2 : String) (v : RefTuple) :
    WriteInv (hist ++ [(k2, v)]) (writeRef st k2 v) := by
  intro k
  obtain ⟨hl, hw, hg⟩ := h k
  obtain ⟨hl2, hw2, hg2⟩ := h k2
  have hcnt : countOcc k ((hist ++ [(k2, v)]).map Prod.fst) =
      countOcc k (hist.map Prod.fst) + (if k2 = k then 1 else 0) := by
    simp [countOcc_append, countOcc]
  unfold writeRef
  by_cases hcond : (lookupAssoc k2 st.refs).isSome ∧ k2 ∉ st.warned
  · rw [if_pos hcond]
    have h1 : 1 ≤ countOcc k2 (hist.map Prod.fst) := by
      rw [← lastWritten_isSome, ← hl2]
      exact hcond.1
    have h2 : ¬ 2 ≤ countOcc k2 (hist.map Prod.fst) := fun hh => hcond.2 (hw2.mpr hh)
    have hc1 : countOcc k2 (hist.map Prod.fst) = 1 := by omega
    refine ⟨?_, ?_, ?_⟩
    · dsimp only
      rw [lookupAssoc_update, lastWritten_append, hl]
    · dsimp only
      rw [hcnt]
      by_cases hk : k2 = k
      · subst hk
        rw [hc1, if_pos rfl]
        simp [List.mem_append]
      · rw [if_neg hk]
        simp [List.mem_append, Ne.symm hk, hw]
    · dsimp only
      rw [hcnt, countOcc_append]
      by_cases hk : k2 = k
      · subst hk
        rw [hg, hc1]
        simp [countOcc]
      · have hne : LogEntry.dupWarning k2 ≠ LogEntry.dupWarning k := by
          intro hh
          injection hh with hh2
          exact hk hh2
        rw [if_neg hk]
        simp [countOcc, hne, hg]
  · rw [if_neg hcond]
    refine ⟨?_, ?_, ?_⟩
    · dsimp only
      rw [lookupAssoc_update, lastWritten_append, hl]
    · dsimp only
      rw [hcnt]
      by_cases hk : k2 = k
      · subst hk
        rw [if_pos rfl]
        constructor
        · intro hmem
          have hge := hw2.mp hmem
          omega
        · intro hge
          have h1c : 1 ≤ countOcc k2 (hist.map Prod.fst) := by omega
          have hsome : (lookupAssoc k2 st.refs).isSome := by
            rw [hl2, lastWritten_isSome]
            exact h1c
          rcases not_and_or.mp hcond with hA | hB
          · exact absurd hsome hA
          · exact not_not.mp hB
      · rw [if_neg hk]
        simpa using hw
    · dsimp only
      rw [hcnt]
      by_cases hk : k2 = k
      · subst hk
        rw [if_pos rfl, hg]
        rcases not_and_or.mp hcond with hA | hB
        · have h0 : ¬ (lookupAssoc k2 st.refs).isSome := hA
          rw [hl2, lastWritten_isSome] at h0
          have hz : countOcc k2 (hist.map Prod.fst) = 0 := by omega
          rw [hz]
          norm_num
        · have h2c : 2 ≤ countOcc k2 (hist.map Prod.fst) := hw2.mp (not_not.mp hB)
          rw [if_pos h2c, if_pos (by omega)]
      · rw [if_neg hk]
        simpa using hg

theorem writeRefs_inv :
    ∀ (events : List (String × RefTuple)) (hist : List (String × RefTuple)) (st : RefState),
      WriteInv hist st → WriteInv (hist ++ events) (writeRefs st events)
  | [], hist, st, h => by simpa [writeRefs] using h
  | e :: rest, hist, st, h => by
    have h2 := writeRef_inv h e.1 e.2
    have h3 := writeRefs_inv rest (hist ++ [(e.1, e.2)]) (writeRef st e.1 e.2) h2
    simpa [writeRefs, List.append_assoc] using h3

theorem writeInv_init : WriteInv [] initRefState := by
  intro k
  refine ⟨rfl, ?_, ?_⟩
  · simp [initRefState, countOcc]
  · simp [initRefState, countOcc]

theorem writeRefs_fresh :
    ∀ (events : List (String × RefTuple)) (st : RefState),
      ((st.refs.map Prod.fst) ++ events.map Prod.fst).Nodup →
      writeRefs st events = ⟨st.refs ++ events, st.warned, st.log⟩
  | [], st, _ => by simp [writeRefs]
  | (k, v) :: rest, st, hnd => by
    have hnotmem : k ∉ st.refs.map Prod.fst := by
      rw [List.nodup_append] at hnd
      intro hmem
      exact hnd.2.2 hmem (by simp)
    have hnone : lookupAssoc k st.refs = none := (lookupAssoc_eq_none k st.refs).mpr hnotmem
    have hcond : ¬ ((lookupAssoc k st.refs).isSome ∧ k ∉ st.warned) := by
      rw [hnone]
      simp
    have hstep : writeRef st k v = ⟨st.refs ++ [(k, v)], st.warned, st.log⟩ := by
      unfold writeRef
      rw [if_neg hcond, updateAssoc_of_not_mem hnone]
    have hnd2 : (((st.refs ++ [(k, v)]).map Prod.fst) ++ rest.map Prod.fst).Nodup := by
      simpa [List.append_assoc] using hnd
    have hrec := writeRefs_fresh rest ⟨st.refs ++ [(k, v)], st.warned, st.log⟩ hnd2
    show writeRefs st ((k, v) :: rest) = _
    rw [show writeRefs st ((k, v) :: rest) = writeRefs (writeRef st k v) rest from rfl,
      hstep, hrec]
    simp

theorem processLine_mkLabelLine (bibentry : String) (st : RefState)
    {label sectionNo page : String} (hl : braceFree label.toList)
    (hs : braceFree sectionNo.toList) (hp : braceFree page.toList) :
    processLine bibentry st (mkLabelLine label sectionNo page) =
      Except.ok (writeRefs st (lineContributions bibentry (label, sectionNo, page))) := by
  have h1 : auxEntryMatch (mkLabelLine label sectionNo page) =
      some (lbrace :: (label.toList ++ rbrace ::
        (lbrace :: (sectionNo.toList ++ rbrace ::
          (lbrace :: (page.toList ++ [rbrace])))))) := by
    unfold auxEntryMatch mkLabelLine
    exact dropLit_append newlabelChars _
  have h2 : findall (lbrace :: (label.toList ++ rbrace ::
      (lbrace :: (sectionNo.toList ++ rbrace ::
        (lbrace :: (page.toList ++ [rbrace])))))) = [label, sectionNo, page] := by
    rw [findall_group hl, findall_group hs,
      show page.toList ++ [rbrace] = page.toList ++ rbrace :: [] from rfl,
      findall_group hp, findall_nil]
    rfl
  simp only [processLine, h1, h2]
  rfl

theorem readAuxLines_wellFormed (bibentry : String) :
    ∀ (records : List (String × String × String)) (st : RefState),
      (∀ r ∈ records,
        braceFree r.1.toList ∧ braceFree r.2.1.toList ∧ braceFree r.2.2.toList) →
      ((st.refs.map Prod.fst) ++ (contributions bibentry records).map Prod.fst).Nodup →
      readAuxLines bibentry (records.map (fun r => mkLabelLine r.1 r.2.1 r.2.2)) st =
        Except.ok ⟨st.refs ++ contributions bibentry records, st.warned, st.log⟩
  | [], st, _, _ => by simp [readAuxLines, contributions]
  | r :: rest, st, hbf, hnd => by
    obtain ⟨hl, hs, hp⟩ := hbf r (List.mem_cons_self r rest)
    have hbf2 := fun x hx => hbf x (List.mem_cons_of_mem r hx)
    have hndline : ((st.refs.map Prod.fst) ++
        (lineContributions bibentry r).map Prod.fst).Nodup := by
      apply List.Nodup.sublist _ hnd
      rw [show contributions bibentry (r :: rest) =
        lineContributions bibentry r ++ contributions bibentry rest from rfl]
      rw [List.map_append, ← List.append_assoc]
      exact List.sublist_append_left _ _
    have hstep : processLine bibentry st (mkLabelLine r.1 r.2.1 r.2.2) =
        Except.ok (writeRefs st (lineContributions bibentry r)) := by
      have := processLine_mkLabelLine bibentry st hl hs hp
      simpa using this
    have hfresh := writeRefs_fresh (lineContributions bibentry r) st hndline
    have hnd2 : (((st.refs ++ lineContributions bibentry r).map Prod.fst) ++
        (contributions bibentry rest).map Prod.fst).Nodup := by
      rw [show contributions bibentry (r :: rest) =
        lineContributions bibentry r ++ contributions bibentry rest from rfl] at hnd
      simpa [List.append_assoc] using hnd
    have hrec := readAuxLines_wellFormed bibentry rest
      ⟨st.refs ++ lineContributions bibentry r, st.warned, st.log⟩ hbf2 hnd2
    rw [List.map_cons]
    rw [show readAuxLines bibentry
        (mkLabelLine r.1 r.2.1 r.2.2 :: rest.map (fun r => mkLabelLine r.1 r.2.1 r.2.2)) st =
      (match processLine bibentry st (mkLabelLine r.1 r.2.1 r.2.2) with
        | Except.ok st2 =>
            readAuxLines bibentry (rest.map (fun r => mkLabelLine r.1 r.2.1 r.2.2)) st2
        | Except.error e => Except.error e) from rfl]
    rw [hstep]
    simp only [hfresh]
    rw [hrec]
    simp [contributions, List.append_assoc]

theorem read_mapping_singleton (bibentry : String) (lines : List (List Char)) :
    read_mapping [(bibentry, lines)] initRefState =
      readAuxLines bibentry lines initRefState := by
  unfold read_mapping
  cases h : readAuxLines bibentry lines initRefState with
  | ok st => simp [read_mapping]
  | error e => simp

theorem contributions_length (bibentry : String) :
    ∀ records : List (String × String × String),
      (contributions bibentry records).length =
        records.length + (records.filter (fun r => decide (':' ∈ r.1.toList))).length := by
  intro records
  induction records with
  | nil => simp [contributions]
  | cons r rest ih =>
    rw [show contributions bibentry (r :: rest) =
      lineContributions bibentry r ++ contributions bibentry rest from rfl]
    rw [List.length_append, ih]
    by_cases hc : ':' ∈ r.1.toList
    · have hcd : ':' ∈ r.1.data := hc
      have hlc : (lineContributions bibentry r).length = 2 := by
        simp [lineContributions, sphinxTargets, hcd]
      have hf : (r :: rest).filter (fun r => decide (':' ∈ r.1.toList)) =
          r :: rest.filter (fun r => decide (':' ∈ r.1.toList)) := by
        simp [List.filter_cons, hcd]
      rw [hlc, hf]
      simp only [List.length_cons]
      omega
    · have hcd : ':' ∉ r.1.data := hc
      have hlc : (lineContributions bibentry r).length = 1 := by
        simp [lineContributions, sphinxTargets, hcd]
      have hf : (r :: rest).filter (fun r => decide (':' ∈ r.1.toList)) =
          rest.filter (fun r => decide (':' ∈ r.1.toList)) := by
        simp [List.filter_cons, hcd]
      rw [hlc, hf]
      simp only [List.length_cons]
      omega

theorem placeholderNode_unknown (contnode bibref : Node) (sectionNo page : String)
    {s : String} (h1 : s ≠ "label") (h2 : s ≠ "bibref") (h3 : s ≠ "section")
    (h4 : s ≠ "page") :
    placeholderNode contnode bibref sectionNo page s = none := by
  unfold placeholderNode
  split
  · exact absurd rfl h1
  · exact absurd rfl h2
  · exact absurd rfl h3
  · exact absurd rfl h4
  · rfl

theorem mem_reftargets_to_try_hyphen (tt : String → String) (ty t : String) :
    underscoreToHyphen t ∈ reftargets_to_try tt ty t := by
  have ht : t ∈ (if ty = "mod" then [t] ++ ["module-" ++ t] else [t]) := by
    by_cases hm : ty = "mod" <;> simp [hm]
  unfold reftargets_to_try
  refine List.mem_append_right _ ?_
  refine List.mem_map_of_mem underscoreToHyphen ?_
  exact List.mem_append_left _ ht

/-! ## Claim theorems -/

/-- C1: for every reference request whose output format is enabled,
`missing_reference` builds the candidate list in exactly the claimed
order (literal target; `module-`-prefixed target for module references;
then the typeset-escaped variants of all candidates so far, in order;
then the underscore-to-hyphen variants of all candidates so far, in
order), tries the candidates against the Reference Index in that
order, returns the formatted reference built from the tuple of the
first candidate present, and returns `none` (not handled) when no
candidate is present; in particular a request for target `foo_bar`
succeeds against an index containing only the key `foo-bar`. -/
theorem C1_candidate_resolution (texTranslate : String → String) (fmt : String)
    (formats : List String) (template : String) (citations : Citations)
    (reftype refdoc : String) (contnode : Node) (hfmt : fmt ∈ formats) :
    (∀ reftarget, reftargets_to_try texTranslate reftype reftarget =
      claimedCandidates texTranslate reftype reftarget) ∧
    (∀ (reftarget : String) (refs : List (String × RefTuple)),
      (∀ c ∈ reftargets_to_try texTranslate reftype reftarget, lookupAssoc c refs = none) →
      missing_reference texTranslate fmt formats template citations refs reftype
        reftarget refdoc contnode = none) ∧
    (∀ (reftarget : String) (refs : List (String × RefTuple)) (pre post : List String)
      (c : String) (r : RefTuple),
      reftargets_to_try texTranslate reftype reftarget = pre ++ c :: post →
      (∀ c2 ∈ pre, lookupAssoc c2 refs = none) →
      lookupAssoc c refs = some r →
      missing_reference texTranslate fmt formats template citations refs reftype
        reftarget refdoc contnode =
        some (make_pdf_reference template fmt citations r.1 r.2.1 r.2.2 contnode refdoc)) ∧
    (∀ r : RefTuple,
      missing_reference texTranslate fmt formats template citations [("foo-bar", r)]
        reftype "foo_bar" refdoc contnode =
        some (make_pdf_reference template fmt citations r.1 r.2.1 r.2.2 contnode refdoc)) := by
  refine ⟨?_, ?_, ?_, ?_⟩
  · intro reftarget
    by_cases hm : reftype = "mod" <;>
      simp [reftargets_to_try, claimedCandidates, escapeVariant, hm]
  · intro reftarget refs hall
    unfold missing_reference
    rw [if_pos hfmt]
    apply findSome?_eq_none
    intro x hx
    rw [hall x hx]
    rfl
  · intro reftarget refs pre post c r hsplit hpre hc
    unfold missing_reference
    rw [if_pos hfmt, hsplit]
    apply findSome?_first_hit
    · intro x hx
      rw [hpre x hx]
      rfl
    · rw [hc]
      rfl
  · intro r
    unfold missing_reference
    rw [if_pos hfmt]
    apply findSome?_of_uniform
    · intro x _
      by_cases hx : x = "foo-bar"
      · subst hx
        right
        rfl
      · left
        have hne : ("foo-bar" : String) ≠ x := fun hh => hx hh.symm
        have hnone : lookupAssoc x [("foo-bar", r)] = none := by
          simp [lookupAssoc, hne]
        rw [hnone]
        rfl
    · refine ⟨"foo-bar", ?_, rfl⟩
      exact mem_reftargets_to_try_hyphen texTranslate reftype "foo_bar"

/-- C1 witness: with the identity in place of the external translation
table, an enabled `latex` build and an index containing only
`foo-bar`, a request for `foo_bar` resolves to the formatted
reference. -/
theorem C1_witness :
    missing_reference id "latex" ["latex"] defaultReferenceFormat []
      [("foo-bar", ("bibkey", "1", "2"))] "ref" "foo_bar" "d" (Node.text "x") =
      some (make_pdf_reference defaultReferenceFormat "latex" [] "bibkey" "1" "2"
        (Node.text "x") "d") :=
  (C1_candidate_resolution id "latex" ["latex"] defaultReferenceFormat [] "ref" "d"
    (Node.text "x") (by decide)).2.2.2 ("bibkey", "1", "2")

/-- C2 counterexample: a file with the two well-formed lines for the
pairwise-distinct labels `a:x` and `b:x` (each containing a colon, so
the claim demands 2N = 4 index keys) parses to an index with only 3
keys, since both labels share the after-colon key `x`. -/
theorem C2_counterexample :
    (read_mapping [("bib", [mkLabelLine "a:x" "1" "2", mkLabelLine "b:x" "3" "4"])]
        initRefState).map (fun st => st.refs) =
      Except.ok [("a:x", ("bib", "1", "2")), ("x", ("bib", "3", "4")),
        ("b:x", ("bib", "3", "4"))] ∧
    ("a:x" : String) ≠ "b:x" ∧
    (':' ∈ "a:x".toList) ∧ (':' ∈ "b:x".toList) ∧
    ([("a:x", ("bib", "1", "2")), ("x", ("bib", "3", "4")),
      ("b:x", ("bib", "3", "4"))] : List (String × RefTuple)).length ≠ 2 * 2 ∧
    ([("a:x", ("bib", "1", "2")), ("x", ("bib", "3", "4")),
      ("b:x", ("bib", "3", "4"))] : List (String × RefTuple)).length ≠ 2 :=
  ⟨rfl, by decide, by decide, by decide, by decide, by decide⟩

/-- C2 (amended): for a file of N well-formed label-definition lines
whose generated index keys (each full label plus, for labels containing
a colon, the after-first-colon part) are pairwise distinct, parsing
yields exactly those keys in order — N plus the number of labels
containing a colon of them (hence N when no label has a colon and 2N
when all do) — and each key maps to the (bibliography entry, section,
page) tuple of its line, the 1st/2nd/3rd brace groups, with no
duplicate warning issued. -/
theorem C2_index_contents (bibentry : String) (records : List (String × String × String))
    (hbf : ∀ r ∈ records,
      braceFree r.1.toList ∧ braceFree r.2.1.toList ∧ braceFree r.2.2.toList)
    (hnd : ((contributions bibentry records).map Prod.fst).Nodup) :
    read_mapping [(bibentry, records.map (fun r => mkLabelLine r.1 r.2.1 r.2.2))]
        initRefState =
      Except.ok ⟨contributions bibentry records, [], []⟩ ∧
    (contributions bibentry records).length =
      records.length + (records.filter (fun r => decide (':' ∈ r.1.toList))).length ∧
    (∀ kv ∈ contributions bibentry records,
      lookupAssoc kv.1 (contributions bibentry records) = some kv.2) := by
  refine ⟨?_, contributions_length bibentry records, lookupAssoc_self_of_nodup hnd⟩
  rw [read_mapping_singleton]
  have := readAuxLines_wellFormed bibentry records initRefState hbf (by simpa [initRefState] using hnd)
  simpa [initRefState] using this

/-- C2 witness: a two-line file (labels `a` and `b:c`, all generated
keys distinct) parses to exactly its contribution list. -/
theorem C2_witness :
    read_mapping [("bib", [("a", "1", "2"), ("b:c", "3", "4")].map
        (fun r => mkLabelLine r.1 r.2.1 r.2.2))] initRefState =
      Except.ok ⟨contributions "bib" [("a", "1", "2"), ("b:c", "3", "4")], [], []⟩ :=
  (C2_index_contents "bib" [("a", "1", "2"), ("b:c", "3", "4")]
    (by decide) (by decide)).1

/-- C3 counterexample: the line consisting of `\newlabel` alone matches
the label-definition macro pattern but yields 0 < 3 brace groups, and
parsing a file containing it raises (`IndexError`) instead of ignoring
the line. -/
theorem C3_counterexample :
    auxEntryMatch newlabelChars = some [] ∧
    findall [] = [] ∧
    read_mapping [("b", [newlabelChars])] initRefState = Except.error () :=
  ⟨rfl, rfl, rfl⟩

/-- C3 (amended): a line not matching the label-definition macro is
ignored and never fails; a line matching the macro whose argument list
yields at least 3 top-level brace groups contributes its first three
groups (later groups ignored); but a line matching the macro with
fewer than 3 groups raises (`IndexError`, aborting parsing) rather
than being ignored. -/
theorem C3_line_handling (bibentry : String) (st : RefState) (line : List Char) :
    (auxEntryMatch line = none → processLine bibentry st line = Except.ok st) ∧
    (∀ rest, auxEntryMatch line = some rest → (findall rest).length < 3 →
      processLine bibentry st line = Except.error ()) ∧
    (∀ rest label sectionNo page extra, auxEntryMatch line = some rest →
      findall rest = label :: sectionNo :: page :: extra →
      processLine bibentry st line = Except.ok (writeRefs st
        ((sphinxTargets label).map (fun t => (t, (bibentry, sectionNo, page)))))) := by
  refine ⟨?_, ?_, ?_⟩
  · intro h
    simp [processLine, h]
  · intro rest hm hlen
    simp only [processLine, hm]
    rcases hf : findall rest with _ | ⟨a, _ | ⟨b, _ | ⟨c, l⟩⟩⟩
    · rfl
    · rfl
    · rfl
    · rw [hf] at hlen
      simp only [List.length_cons] at hlen
      exact absurd hlen (by omega)
  · intro rest label sectionNo page extra hm hf
    simp [processLine, hm, hf]

/-- C3 witness: a non-matching line is ignored; `\newlabel` with one
brace group errors; a matching line with four groups contributes the
first three. -/
theorem C3_witness :
    processLine "b" initRefState "other line".toList = Except.ok initRefState ∧
    processLine "b" initRefState (newlabelChars ++ [lbrace, 'x', rbrace]) =
      Except.error () ∧
    processLine "b" initRefState (mkLabelLine "l" "1" "2" ++ [lbrace, 'z', rbrace]) =
      Except.ok (writeRefs initRefState [("l", ("b", "1", "2"))]) :=
  ⟨(C3_line_handling "b" initRefState "other line".toList).1 rfl,
   (C3_line_handling "b" initRefState (newlabelChars ++ [lbrace, 'x', rbrace])).2.1
     [lbrace, 'x', rbrace] rfl (by decide),
   (C3_line_handling "b" initRefState (mkLabelLine "l" "1" "2" ++ [lbrace, 'z', rbrace])).2.2
     ((mkLabelLine "l" "1" "2" ++ [lbrace, 'z', rbrace]).drop 9) "l" "1" "2" ["z"]
     (by rfl) (by rfl)⟩

/-- C4 counterexample: the template `\x7blabel` has unbalanced braces,
yet `make_pdf_reference` succeeds, emitting the brace text literally
instead of raising. -/
theorem C4_counterexample :
    make_pdf_reference "\x7blabel" "latex" [("doc", ("d", "id", 0))] "doc" "2" "5"
        (Node.text "x") "r" =
      Except.ok (Node.inline [Node.text "\x7blabel"], []) ∧
    Except.ok (Node.inline [Node.text "\x7blabel"], []) ≠
      (Except.error () : Except Unit (Node × List LogEntry)) :=
  ⟨rfl, by simp⟩

/-- C4 (amended): a reference-format template containing a placeholder
whose name is not one of `label`, `bibref`, `section`, `page` makes
`make_pdf_reference` fail loudly (`KeyError`, modelled as
`Except.error`); unbalanced braces, however, are not detected — brace
text that does not form a complete placeholder group is passed through
literally as template text. -/
theorem C4_unknown_placeholder_raises (a ph b : List Char)
    (ha : braceFree a) (hph : braceFree ph)
    (h1 : String.mk ph ≠ "label") (h2 : String.mk ph ≠ "bibref")
    (h3 : String.mk ph ≠ "section") (h4 : String.mk ph ≠ "page")
    (fmt : String) (citations : Citations)
    (bibentry sectionNo page refdoc : String) (contnode : Node) :
    make_pdf_reference (String.mk (a ++ lbrace :: (ph ++ rbrace :: b))) fmt citations
      bibentry sectionNo page contnode refdoc = Except.error () := by
  unfold make_pdf_reference
  rw [show (String.mk (a ++ lbrace :: (ph ++ rbrace :: b))).toList =
    a ++ lbrace :: (ph ++ rbrace :: b) from rfl]
  rw [splitBracketed_group ha hph]
  simp only [buildParts,
    placeholderNode_unknown _ _ _ _ h1 h2 h3 h4]

/-- C4 witness: the template `x\x7bbogus\x7dy` (an unknown placeholder
`bogus`) raises. -/
theorem C4_witness :
    make_pdf_reference (String.mk ("x".toList ++ lbrace :: ("bogus".toList ++
        rbrace :: "y".toList))) "latex" [] "doc" "2" "5" (Node.text "t") "r" =
      Except.error () :=
  C4_unknown_placeholder_raises "x".toList "bogus".toList "y".toList
    (by decide) (by decide) (by decide) (by decide) (by decide) (by decide)
    "latex" [] "doc" "2" "5" "r" (Node.text "t")

/-- C5: over any sequence of index writes performed by the write loop
of `read_mapping` starting from the initial state, every key written at
least twice ends up mapped to its last-written tuple, and exactly one
duplicate-label warning is logged for it regardless of how many
duplicate writes occur. -/
theorem C5_duplicate_last_write_one_warning (events : List (String × RefTuple))
    (k : String) (h : 2 ≤ countOcc k (events.map Prod.fst)) :
    lookupAssoc k (writeRefs initRefState events).refs = lastWritten k events ∧
    (lastWritten k events).isSome ∧
    countOcc (LogEntry.dupWarning k) (writeRefs initRefState events).log = 1 := by
  have hinv := writeRefs_inv events [] initRefState writeInv_init
  rw [List.nil_append] at hinv
  obtain ⟨h1, _, h3⟩ := hinv k
  refine ⟨h1, ?_, ?_⟩
  · rw [lastWritten_isSome]
    omega
  · rw [h3, if_pos h]

/-- C5 witness: three writes to the key `k` leave its last tuple in the
index and exactly one duplicate warning in the log. -/
theorem C5_witness :
    lookupAssoc "k" (writeRefs initRefState
        [("k", ("b", "1", "2")), ("k", ("b", "3", "4")), ("k", ("b", "5", "6"))]).refs =
      lastWritten "k" [("k", ("b", "1", "2")), ("k", ("b", "3", "4")), ("k", ("b", "5", "6"))] ∧
    (lastWritten "k" [("k", ("b", "1", "2")), ("k", ("b", "3", "4")), ("k", ("b", "5", "6"))]).isSome ∧
    countOcc (LogEntry.dupWarning "k") (writeRefs initRefState
        [("k", ("b", "1", "2")), ("k", ("b", "3", "4")), ("k", ("b", "5", "6"))]).log = 1 :=
  C5_duplicate_last_write_one_warning
    [("k", ("b", "1", "2")), ("k", ("b", "3", "4")), ("k", ("b", "5", "6"))] "k" (by decide)

/-- C6 counterexample: for a pattern matched by two files, the logged
message is an error (the source calls `logger.error`), not a warning as
the claim states. -/
theorem C6_counterexample :
    expand_aux_file_names (fun n => ModResult.importFail n "m") id (fun _ => ["a", "b"])
        [("k", "p")] =
      Except.ok ([("k", "a")], [LogEntry.multiMatchError "p" "k" "a"]) ∧
    (LogEntry.multiMatchError "p" "k" "a").severity = Severity.error ∧
    (LogEntry.multiMatchError "p" "k" "a").severity ≠ Severity.warning :=
  ⟨rfl, rfl, by decide⟩

/-- C6 (amended): for every mapping entry whose module substitution
succeeds, glob expansion behaves as: zero matches — the entry is
dropped and exactly one error is logged; exactly one match — the entry
resolves to that file with nothing logged; more than one match — an
error (not a warning) is logged and only the first match is kept; so
every surviving entry is bound to exactly one concrete file path. -/
theorem C6_glob_trichotomy (rm : String → ModResult) (norm : String → String)
    (globFn : String → List String) (bibentry pat : String) (cs : List Char)
    (hsub : substModules rm pat = Except.ok cs) :
    (globFn (norm (String.mk cs)) = [] →
      expand_aux_file_names rm norm globFn [(bibentry, pat)] =
        Except.ok ([], [LogEntry.noMatchError (norm (String.mk cs)) bibentry]) ∧
      (LogEntry.noMatchError (norm (String.mk cs)) bibentry).severity = Severity.error) ∧
    (∀ f, globFn (norm (String.mk cs)) = [f] →
      expand_aux_file_names rm norm globFn [(bibentry, pat)] =
        Except.ok ([(bibentry, f)], [])) ∧
    (∀ f g rest, globFn (norm (String.mk cs)) = f :: g :: rest →
      expand_aux_file_names rm norm globFn [(bibentry, pat)] =
        Except.ok ([(bibentry, f)],
          [LogEntry.multiMatchError (norm (String.mk cs)) bibentry f]) ∧
      (LogEntry.multiMatchError (norm (String.mk cs)) bibentry f).severity =
        Severity.error) := by
  refine ⟨?_, ?_, ?_⟩
  · intro hg
    refine ⟨?_, rfl⟩
    simp [expand_aux_file_names, expandEntry, hsub, hg]
  · intro f hg
    simp [expand_aux_file_names, expandEntry, hsub, hg]
  · intro f g rest hg
    refine ⟨?_, rfl⟩
    simp [expand_aux_file_names, expandEntry, hsub, hg]

/-- C6 witness: with concrete capabilities, a zero-match entry is
dropped with one error, a one-match entry resolves, and a two-match
entry keeps the first file. -/
theorem C6_witness :
    expand_aux_file_names (fun n => ModResult.importFail n "m") id (fun _ => [])
        [("k", "p")] = Except.ok ([], [LogEntry.noMatchError "p" "k"]) ∧
    expand_aux_file_names (fun n => ModResult.importFail n "m") id (fun _ => ["a"])
        [("k", "p")] = Except.ok ([("k", "a")], []) :=
  ⟨((C6_glob_trichotomy (fun n => ModResult.importFail n "m") id (fun _ => [])
      "k" "p" "p".toList rfl).1 rfl).1,
   (C6_glob_trichotomy (fun n => ModResult.importFail n "m") id (fun _ => ["a"])
      "k" "p" "p".toList rfl).2.1 "a" rfl⟩

/-- C7: when the current output format is not in the configured set of
enabled formats, `missing_reference` declines (returns `none`) for
every request, regardless of the contents of the Reference Index. -/
theorem C7_disabled_format_declines (texTranslate : String → String) (fmt : String)
    (formats : List String) (template : String) (citations : Citations)
    (refs : List (String × RefTuple)) (reftype reftarget refdoc : String)
    (contnode : Node) (h : fmt ∉ formats) :
    missing_reference texTranslate fmt formats template citations refs reftype
      reftarget refdoc contnode = none := by
  simp [missing_reference, h]

/-- C7 witness: an `html` build with only `latex` enabled declines even
though the index contains the requested target. -/
theorem C7_witness :
    missing_reference id "html" ["latex"] defaultReferenceFormat []
      [("x", ("b", "1", "2"))] "ref" "x" "d" (Node.text "t") = none :=
  C7_disabled_format_declines id "html" ["latex"] defaultReferenceFormat []
    [("x", ("b", "1", "2"))] "ref" "x" "d" (Node.text "t") (by decide)

/-- C8: for a bibliography key with no known citation definition, the
citation lookup returns the ("", "") sentinel, and building a
bibliography reference returns a plain (non-hyperlinked) text node
reading `[key]` with one warning logged. -/
theorem C8_missing_citation_fallback (fmt : String) (citations : Citations)
    (bibentry refdoc : String) (h : lookupAssoc bibentry citations = none) :
    get_citation_ref citations bibentry = ("", "") ∧
    make_bib_reference fmt citations bibentry refdoc =
      (Node.text ("[" ++ bibentry ++ "]"), [LogEntry.noCitationWarning bibentry]) ∧
    (LogEntry.noCitationWarning bibentry).severity = Severity.warning := by
  have hg : get_citation_ref citations bibentry = ("", "") := by
    simp [get_citation_ref, h]
  refine ⟨hg, ?_, rfl⟩
  simp [make_bib_reference, hg]

/-- C8 witness: with an empty citation registry, the key `key` yields
the sentinel and the plain-text `[key]` fallback plus warning. -/
theorem C8_witness :
    get_citation_ref [] "key" = ("", "") ∧
    make_bib_reference "latex" [] "key" "d" =
      (Node.text ("[" ++ "key" ++ "]"), [LogEntry.noCitationWarning "key"]) ∧
    (LogEntry.noCitationWarning "key").severity = Severity.warning :=
  C8_missing_citation_fallback "latex" [] "key" "d" rfl

/-- C9: `make_pdf_reference` applied to the default template
`\x7blabel\x7d (\x7bbibref\x7d, page \x7bpage\x7d)` with label node
text `Fig 1`, a bibref node whose text is `[doc]`, section `2` and page
`5` produces the alternating literal/substituted node sequence in
template order, whose concatenated rendered text is exactly
`Fig 1 ([doc], page 5)`. -/
theorem C9_default_template_rendering :
    make_pdf_reference defaultReferenceFormat "latex" [("doc", ("d", "id", 0))]
        "doc" "2" "5" (Node.text "Fig 1") "r" =
      Except.ok (Node.inline [Node.text "", Node.text "Fig 1", Node.text " (",
        Node.citationRef "[doc]" "d" "id", Node.text ", page ", Node.text "5",
        Node.text ")"], []) ∧
    (Node.inline [Node.text "", Node.text "Fig 1", Node.text " (",
      Node.citationRef "[doc]" "d" "id", Node.text ", page ", Node.text "5",
      Node.text ")"]).astext = "Fig 1 ([doc], page 5)" ∧
    (Node.citationRef "[doc]" "d" "id").astext = "[doc]" :=
  ⟨rfl, rfl, rfl⟩

/-- C10: during module substitution in `expand_aux_file_names`, only
failures to import are recovered (the entry is dropped with exactly one
logged error); a module token naming a module that imports but has no
locatable Python source file makes the resolver raise an unhandled
`TypeError` (modelled as `Except.error`), aborting configuration
instead of dropping the entry — witnessed concretely by the pattern
`\x7bsys\x7d/doc.aux` under a no-source module resolver. -/
theorem C10_import_only_recovered :
    (∀ (rm : String → ModResult) (norm : String → String)
        (globFn : String → List String) (bibentry pat n m : String),
      substModules rm pat = Except.error (SubstErr.importFail n m) →
      expand_aux_file_names rm norm globFn [(bibentry, pat)] =
        Except.ok ([], [LogEntry.importError n m bibentry]) ∧
      (LogEntry.importError n m bibentry).severity = Severity.error) ∧
    expand_aux_file_names (fun _ => ModResult.noSource) id (fun _ => ["x"])
      [("b", "\x7bsys\x7d/doc.aux")] = Except.error () := by
  refine ⟨?_, rfl⟩
  intro rm norm globFn bibentry pat n m hsub
  refine ⟨?_, rfl⟩
  simp [expand_aux_file_names, expandEntry, hsub]

/-- C10 witness: a pattern whose module token fails to import is
dropped with exactly one import error logged. -/
theorem C10_witness :
    expand_aux_file_names (fun n => ModResult.importFail n "no module") id
        (fun _ => ["x"]) [("b", "\x7bfoo\x7d/doc.aux")] =
      Except.ok ([], [LogEntry.importError "foo" "no module" "b"]) :=
  (C10_import_only_recovered.1 (fun n => ModResult.importFail n "no module") id
    (fun _ => ["x"]) "b" "\x7bfoo\x7d/doc.aux" "foo" "no module" rfl).1

end Intertex
